import Mathlib

/-!
Shallow embedding of the inference session manager in `src/commitgen.cpp`
(`CommitGen::generate`, `build_prompt` and the session state of
`CommitGen::Impl`).

Strings are modelled as `List Char` (a `std::string` is a sequence of
characters).  The llama.cpp library calls are modelled by an `Oracle` of
pure functions:

* `tokenize prompt` models `llama_tokenize`; `none` models a negative
  return length (the failure case at commitgen.cpp:104), `some toks` the
  produced token list after `tokens.resize(n_tokens)`.
* `decodeOk ctx batch` models `llama_decode` returning status 0 when the
  context currently holds the decoded tokens `ctx` and the batch `batch`
  is submitted (`true` = status 0).
* `sample ctx n` models `llama_sampler_sample(sampler, ctx, -1)` where
  `ctx` is the list of tokens decoded into the context so far (these
  determine the logits of the last decode) and `n` is the number of
  draws already taken from the per-call sampler chain (the chain
  temp(0.3) -> top_p(0.9,1) -> dist(seed 42) is created fresh in every
  call, so its state is determined by the draw count alone).
* `isEog t` models `llama_vocab_is_eog`.
* `tokenToPiece t` models `llama_token_to_piece`; `none` models a
  negative length (commitgen.cpp:129), `some piece` the written buffer.

The session state is the readiness flag (`Impl::ready`) plus the tokens
currently held in the context's KV cache (`Impl::ctx`), which is the only
state `generate` mutates.
-/

def lc (s : String) : List Char := s.toList

structure Oracle where
  tokenize : List Char → Option (List Nat)
  decodeOk : List Nat → List Nat → Bool
  sample : List Nat → Nat → Nat
  isEog : Nat → Bool
  tokenToPiece : Nat → Option (List Char)

structure Session where
  ready : Bool
  ctxTokens : List Nat
deriving DecidableEq

/-- `leadsWith pat s` is true iff `pat` occurs at the start of `s`
(the prefix test used by `std::string::find` position 0 checks). -/
def leadsWith : List Char → List Char → Bool
  | [], _ => true
  | _ :: _, [] => false
  | a :: as, b :: bs => a == b && leadsWith as bs

/-- `containsSub pat s` models `s.find(pat) != std::string::npos`. -/
def containsSub (pat : List Char) : List Char → Bool
  | [] => leadsWith pat []
  | c :: t => leadsWith pat (c :: t) || containsSub pat t

/-- `truncBefore pat s` models `s.substr(0, s.find(pat))`: the part of
`s` before the first occurrence of `pat` (all of `s` if absent). -/
def truncBefore (pat : List Char) : List Char → List Char
  | [] => []
  | c :: t => if leadsWith pat (c :: t) then [] else c :: truncBefore pat t

/-- The literal stop marker of commitgen.cpp:117. -/
def stopStr : List Char := lc "<|im_end|>"

/-- The fixed template text before the diff in `build_prompt`
(commitgen.cpp:64-82). -/
def promptHead : String :=
  "<|im_start|>system\nYou are a commit message generator. Write a clear, natural commit message.\n\nRules:\n- First line: short summary of what changed (max 72 chars)\n- Then a blank line\n- Then a paragraph explaining the changes in plain English\n- No prefixes like \"feat:\", \"fix:\", etc.\n- No bullet points\n- No \"I\" statements - use passive voice or imperative\n- Write like documentation, not a personal note\n\nExample:\nDisable playground build by default\n\nThe CMake configuration now has BUILD_PLAYGROUND disabled by default to streamline the build process. Users who need the playground examples can enable it manually in their local configuration.\n<|im_end|>\n<|im_start|>user\n"

/-- The fixed template text after the diff in `build_prompt`
(commitgen.cpp:83-86). -/
def promptTail : String := "\n<|im_end|>\n<|im_start|>assistant\n"

/-- `build_prompt` (commitgen.cpp:63-87): wraps the diff in the fixed
role-tagged instruction template. -/
def build_prompt (diff : List Char) : List Char :=
  lc promptHead ++ diff ++ lc promptTail

/-- The consecutive-newline counter transition of commitgen.cpp:142-148:
the fragment `"\n"` increments the counter; otherwise a fragment with a
character outside space/tab (`find_first_not_of(" \t") != npos`) resets
it to zero; fragments of only spaces and tabs leave it unchanged. -/
def nlNext (piece : List Char) (c : Nat) : Nat :=
  if piece = ['\n'] then c + 1
  else if piece.any (fun ch => !(ch == ' ' || ch == '\t')) then 0
  else c

/-- The decode loop of commitgen.cpp:122-153.  Arguments: remaining
iterations (`512 - i`), tokens currently decoded into the context, the
number of sampler draws taken so far this call, the accumulated result,
and the consecutive-newline counter.  Returns the accumulated result,
the final context contents, and the number of sampling iterations this
invocation performed (instrumentation for the 512 bound). -/
def genLoop (o : Oracle) :
    Nat → List Nat → Nat → List Char → Nat → List Char × List Nat × Nat
  | 0, ctx, _, res, _ => (res, ctx, 0)
  | fuel + 1, ctx, n, res, nl =>
    let tok := o.sample ctx n
    if o.isEog tok then (res, ctx, 1)
    else
      match o.tokenToPiece tok with
      | none =>
        let r := genLoop o fuel ctx (n + 1) res nl
        (r.1, r.2.1, r.2.2 + 1)
      | some piece =>
        let res' := res ++ piece
        if containsSub stopStr res' then (truncBefore stopStr res', ctx, 1)
        else
          let nl' := nlNext piece nl
          if piece = ['\n'] ∧ 3 ≤ nl' then (res', ctx, 1)
          else if o.decodeOk ctx [tok] then
            let r := genLoop o fuel (ctx ++ [tok]) (n + 1) res' nl'
            (r.1, r.2.1, r.2.2 + 1)
          else (res', ctx, 1)

/-- `if (!result.empty() && result[0] == double-quote) result.erase(0, 1)`
(commitgen.cpp:159-160). -/
def dropLeadQuote (r : List Char) : List Char :=
  match r with
  | [] => []
  | c :: t => if c = '"' then t else c :: t

/-- `if (!result.empty() && result.back() == double-quote) result.pop_back()`
(commitgen.cpp:161-162), phrased on the reversed string whose head is
the last character. -/
def dropEndQuote (r : List Char) : List Char :=
  match r.reverse with
  | [] => r
  | c :: t => if c = '"' then t.reverse else r

/-- The trailing-trim loop of commitgen.cpp:165-166, working on the
reversed string: drop leading chars while they are newline or space. -/
def trimTrailRev : List Char → List Char
  | [] => []
  | c :: t => if c = '\n' ∨ c = ' ' then trimTrailRev t else c :: t

/-- `while (!result.empty() && (back == newline || back == space)) pop_back()`
(commitgen.cpp:165-166). -/
def trimTrail (s : List Char) : List Char := (trimTrailRev s.reverse).reverse

/-- The result clean-up of commitgen.cpp:157-166, in source order:
leading quote, trailing quote, then trailing newline/space trim. -/
def postproc (r : List Char) : List Char :=
  trimTrail (dropEndQuote (dropLeadQuote r))

/-- `CommitGen::generate` (commitgen.cpp:89-169).  Not ready: return ""
leaving the session untouched.  Otherwise the KV cache is cleared
(`llama_memory_seq_rm(mem, 0, 0, -1)`, so the context token list starts
empty), the diff is truncated to 4000 characters, the prompt is built
and tokenized (negative length fails the call), the prompt tokens are
decoded as one batch (nonzero status fails the call), the decode loop
runs with fuel 512, and the accumulated result is post-processed. -/
def generate (o : Oracle) (s : Session) (diff : List Char) :
    List Char × Session :=
  if s.ready then
    let input := diff.take 4000
    let prompt := build_prompt input
    match o.tokenize prompt with
    | none => ([], ⟨s.ready, []⟩)
    | some toks =>
      if o.decodeOk [] toks then
        let r := genLoop o 512 toks 0 [] 0
        (postproc r.1, ⟨s.ready, r.2.1⟩)
      else ([], ⟨s.ready, []⟩)
  else ([], s)

/-- An oracle where every llama call is inert (tokenization fails). -/
def oTriv : Oracle :=
  ⟨fun _ => none, fun _ _ => false, fun _ _ => 0, fun _ => false, fun _ => none⟩

/-- Oracle realising the fragment stream of claim C2: draws emit
"ok", then three newline fragments, then "ignored". -/
def oC2 : Oracle :=
  ⟨fun _ => some [9], fun _ _ => true, fun _ n => n, fun _ => false,
   fun t =>
     if t = 0 then some (lc "ok")
     else if t ≤ 3 then some (lc "\n")
     else some (lc "ignored")⟩

/-- Oracle whose fragment stream is "\n", "\n", "\r", "\n", "Z", then an
end-of-generation token: exercises the newline counter on a
whitespace-only fragment that is not a space or a tab. -/
def oC2x : Oracle :=
  ⟨fun _ => some [9], fun _ _ => true, fun _ n => n, fun t => t = 5,
   fun t =>
     if t = 2 then some (lc "\r")
     else if t ≤ 3 then some (lc "\n")
     else some (lc "Z")⟩

/-- Oracle whose first draw fails token-to-piece conversion, whose
second draw emits "hi", and whose third draw is end-of-generation. -/
def oC3 : Oracle :=
  ⟨fun _ => some [9], fun _ _ => true, fun _ n => n, fun t => t = 2,
   fun t => if t = 0 then none else some (lc "hi")⟩

/-- Oracle whose first draw emits a fragment that embeds the literal
stop marker surrounded by other text. -/
def oC4 : Oracle :=
  ⟨fun _ => some [9], fun _ _ => true, fun _ n => n, fun _ => false,
   fun _ => some (lc "text<|im_end|>more text")⟩

/-- Oracle whose prompt batch (two tokens) decodes fine but whose
single-token feedback decodes fail, after one fragment "partial". -/
def oC7 : Oracle :=
  ⟨fun _ => some [7, 8], fun _ b => 2 ≤ b.length, fun _ n => n, fun _ => false,
   fun _ => some (lc "partial")⟩

/-- Oracle where tokenization and the prompt decode both succeed but the
very first sampled token is an end-of-generation token. -/
def oE : Oracle :=
  ⟨fun _ => some [5], fun _ _ => true, fun _ _ => 0, fun _ => true,
   fun _ => some []⟩

/-! ## Substring machinery -/

theorem leadsWith_iff (p : List Char) : ∀ s, leadsWith p s = true ↔ p <+: s := by
  induction p with
  | nil => intro s; simp [leadsWith]
  | cons a as ih =>
    intro s
    cases s with
    | nil => simp [leadsWith]
    | cons b bs => simp [leadsWith, List.cons_prefix_cons, ih, and_comm]

theorem containsSub_iff (p : List Char) :
    ∀ s, containsSub p s = true ↔ p <:+: s := by
  intro s
  induction s with
  | nil => simp [containsSub, leadsWith_iff, List.infix_nil]
  | cons c t ih => simp [containsSub, leadsWith_iff, ih, List.infix_cons_iff]

theorem truncBefore_pre (p : List Char) : ∀ s, truncBefore p s <+: s := by
  intro s
  induction s with
  | nil => simp [truncBefore]
  | cons c t ih =>
    by_cases h : leadsWith p (c :: t) = true
    · simp [truncBefore, h]
    · simp only [truncBefore, h]
      simp [List.cons_prefix_cons, ih]

theorem truncBefore_not_contains (p : List Char) (hp : p ≠ []) :
    ∀ s, containsSub p (truncBefore p s) = false := by
  have hbase : containsSub p [] = false := by
    obtain _ | ⟨a, as⟩ := p
    · exact absurd rfl hp
    · simp [containsSub, leadsWith]
  intro s
  induction s with
  | nil => simpa [truncBefore] using hbase
  | cons c t ih =>
    by_cases h : leadsWith p (c :: t) = true
    · simpa [truncBefore, h] using hbase
    · simp only [truncBefore, h, if_false]
      simp only [containsSub, Bool.or_eq_false_iff]
      refine ⟨?_, ih⟩
      by_contra hlw
      have hlw' : leadsWith p (c :: truncBefore p t) = true := by
        simpa using hlw
      have h1 : p <+: c :: truncBefore p t := (leadsWith_iff p _).1 hlw'
      have h2 : c :: truncBefore p t <+: c :: t := by
        simp [List.cons_prefix_cons, truncBefore_pre p t]
      exact h ((leadsWith_iff p _).2 (h1.trans h2))

/-! ## Post-processing structure -/

theorem dropLeadQuote_suf (r : List Char) : dropLeadQuote r <:+ r := by
  match r with
  | [] => exact List.suffix_refl _
  | c :: t =>
    simp only [dropLeadQuote]
    by_cases h : c = '"'
    · simp only [h, if_true]
      exact List.suffix_cons '"' t
    · simp [h]

theorem dropEndQuote_pre (r : List Char) : dropEndQuote r <+: r := by
  rw [dropEndQuote]
  rcases hrev : r.reverse with _ | ⟨c, t⟩
  · exact List.prefix_refl _
  · by_cases h : c = '"'
    · simp only [h, if_true]
      have hr : r = t.reverse ++ [c] := by
        have h1 : r.reverse.reverse = (c :: t).reverse := by rw [hrev]
        simpa [List.reverse_cons] using h1
      exact ⟨[c], hr.symm⟩
    · simp [h]

theorem trimTrailRev_suf : ∀ x : List Char, trimTrailRev x <:+ x := by
  intro x
  induction x with
  | nil => exact List.suffix_refl _
  | cons c t ih =>
    simp only [trimTrailRev]
    by_cases h : c = '\n' ∨ c = ' '
    · simp only [h, if_true]
      exact ih.trans (List.suffix_cons c t)
    · simp [h]

theorem trimTrail_pre (s : List Char) : trimTrail s <+: s := by
  have h := trimTrailRev_suf s.reverse
  have h2 : (trimTrailRev s.reverse).reverse <+: s.reverse.reverse :=
    List.reverse_prefix.2 h
  simpa [List.reverse_reverse] using h2

theorem postproc_within (r : List Char) : postproc r <:+: r :=
  ((trimTrail_pre _).isInfix).trans
    (((dropEndQuote_pre _).isInfix).trans ((dropLeadQuote_suf r).isInfix))

theorem postproc_trunc_no_stop (res : List Char) :
    containsSub stopStr (postproc (truncBefore stopStr res)) = false := by
  by_contra hne
  have h1 : containsSub stopStr (postproc (truncBefore stopStr res)) = true := by
    simpa using hne
  have h2 : stopStr <:+: postproc (truncBefore stopStr res) :=
    (containsSub_iff _ _).1 h1
  have h3 : stopStr <:+: truncBefore stopStr res := h2.trans (postproc_within _)
  have h4 : containsSub stopStr (truncBefore stopStr res) = true :=
    (containsSub_iff _ _).2 h3
  have h5 := truncBefore_not_contains stopStr (by decide) res
  rw [h4] at h5
  exact absurd h5 (by decide)

/-! ## Loop iteration count and session-state helpers -/

theorem genLoop_count_le (o : Oracle) :
    ∀ fuel ctx n res nl, (genLoop o fuel ctx n res nl).2.2 ≤ fuel := by
  intro fuel
  induction fuel with
  | zero => intro ctx n res nl; exact Nat.le_refl 0
  | succ fuel ih =>
    intro ctx n res nl
    simp only [genLoop]
    split
    · exact Nat.succ_le_succ (Nat.zero_le fuel)
    · split
      · exact Nat.succ_le_succ (ih _ _ _ _)
      · split
        · exact Nat.succ_le_succ (Nat.zero_le fuel)
        · split
          · exact Nat.succ_le_succ (Nat.zero_le fuel)
          · split
            · exact Nat.succ_le_succ (ih _ _ _ _)
            · exact Nat.succ_le_succ (Nat.zero_le fuel)

theorem generate_not_ready (o : Oracle) (s : Session) (d : List Char)
    (h : s.ready = false) : generate o s d = ([], s) := by
  obtain ⟨r, c⟩ := s
  cases r
  · rfl
  · simp at h

theorem generate_ctx_irrel (o : Oracle) (d : List Char) (c c' : List Nat) :
    generate o ⟨true, c⟩ d = generate o ⟨true, c'⟩ d := rfl

theorem generate_state_irrel (o : Oracle) (s : Session) (d : List Char)
    (h : s.ready = true) : generate o s d = generate o ⟨true, []⟩ d := by
  obtain ⟨r, c⟩ := s
  cases r
  · simp at h
  · exact generate_ctx_irrel o d c []

theorem generate_ready_inv (o : Oracle) (s : Session) (d : List Char) :
    (generate o s d).2.ready = s.ready := by
  obtain ⟨r, c⟩ := s
  cases r
  · rfl
  · rw [generate_state_irrel o ⟨true, c⟩ d rfl]
    simp only [generate]
    rcases htk : o.tokenize (build_prompt (List.take 4000 d)) with _ | toks
    · simp [htk]
    · by_cases hd : o.decodeOk [] toks = true
      · simp [htk, hd]
      · simp [htk, hd]

/-! ## Claims -/

/-- Claim C1: for every input diff, calling `generate` on a session whose
readiness flag is not yet true returns the empty string without error and
without mutating any session state (commitgen.cpp:90-91). -/
theorem C1_not_ready_empty (o : Oracle) (s : Session) (d : List Char)
    (h : s.ready = false) : generate o s d = ([], s) :=
  generate_not_ready o s d h

theorem C1_not_ready_empty_w :
    generate oTriv ⟨false, []⟩ [] = ([], ⟨false, []⟩) :=
  C1_not_ready_empty oTriv ⟨false, []⟩ [] rfl

/-- Claim C3: a token-to-piece conversion failure (negative length,
modelled as `none`) skips that iteration's append and its decode but the
loop continues with the next draw; concretely, with `oC3` the first draw
fails conversion, the call still returns "hi" and the succeeding token is
fed through the context (commitgen.cpp:127-133). -/
theorem C3_conversion_failure_nonfatal :
    (∀ (o : Oracle) (fuel : Nat) (ctx : List Nat) (n : Nat) (res : List Char)
        (nl : Nat),
        o.isEog (o.sample ctx n) = false →
        o.tokenToPiece (o.sample ctx n) = none →
        genLoop o (fuel + 1) ctx n res nl =
          ((genLoop o fuel ctx (n + 1) res nl).1,
            (genLoop o fuel ctx (n + 1) res nl).2.1,
            (genLoop o fuel ctx (n + 1) res nl).2.2 + 1)) ∧
      generate oC3 ⟨true, []⟩ [] = (lc "hi", ⟨true, [9, 1]⟩) := by
  constructor
  · intro o fuel ctx n res nl h1 h2
    simp [genLoop, h1, h2]
  · decide

theorem C3_conversion_failure_nonfatal_w :
    genLoop oTriv 1 [] 0 [] 0 =
      ((genLoop oTriv 0 [] 1 [] 0).1, (genLoop oTriv 0 [] 1 [] 0).2.1,
        (genLoop oTriv 0 [] 1 [] 0).2.2 + 1) :=
  C3_conversion_failure_nonfatal.1 oTriv 0 [] 0 [] 0 rfl rfl

/-- Claim C4: whenever the accumulated result comes to contain the
literal stop marker, the loop truncates at the marker's first occurrence
and stops, the post-processed return value never contains the marker, and
the raw emission "text<|im_end|>more text" yields the return value
"text" (commitgen.cpp:136-139). -/
theorem C4_stop_marker :
    (∀ (o : Oracle) (fuel : Nat) (ctx : List Nat) (n : Nat) (res : List Char)
        (nl : Nat) (p : List Char),
        o.isEog (o.sample ctx n) = false →
        o.tokenToPiece (o.sample ctx n) = some p →
        containsSub stopStr (res ++ p) = true →
        genLoop o (fuel + 1) ctx n res nl =
          (truncBefore stopStr (res ++ p), ctx, 1)) ∧
      (∀ res : List Char,
        containsSub stopStr (postproc (truncBefore stopStr res)) = false) ∧
      generate oC4 ⟨true, []⟩ [] = (lc "text", ⟨true, [9]⟩) := by
  refine ⟨?_, postproc_trunc_no_stop, by decide⟩
  intro o fuel ctx n res nl p h1 h2 h3
  simp [genLoop, h1, h2, h3]

theorem C4_stop_marker_w :
    genLoop oC4 512 [9] 0 [] 0 =
      (truncBefore stopStr (lc "text<|im_end|>more text"), [9], 1) :=
  C4_stop_marker.1 oC4 511 [9] 0 [] 0 (lc "text<|im_end|>more text") rfl rfl
    (by decide)

/-- Claim C5: with the per-call context reset (commitgen.cpp:96-97) and
the fresh fixed-seed sampler chain (commitgen.cpp:112-115), two
sequential `generate` calls on the same diff with no intervening state
change return identical output strings. -/
theorem C5_determinism (o : Oracle) (s : Session) (d : List Char) :
    (generate o s d).1 = (generate o (generate o s d).2 d).1 := by
  by_cases h : s.ready = true
  · have h2 : (generate o s d).2.ready = true := by
      rw [generate_ready_inv]; exact h
    rw [generate_state_irrel o (generate o s d).2 d h2,
        generate_state_irrel o s d h]
  · have hb : s.ready = false := by
      cases hr : s.ready
      · rfl
      · exact absurd hr h
    have h1 := generate_not_ready o s d hb
    rw [h1]
    show ([] : List Char) = (generate o s d).1
    rw [h1]

/-- Claim C7: a failing single-token feedback decode stops the loop early
but the call still returns the text accumulated so far rather than
discarding it (commitgen.cpp:150-152, post-processing at 157-168). -/
theorem C7_midgen_decode_failure :
    (∀ (o : Oracle) (fuel : Nat) (ctx : List Nat) (n : Nat) (res : List Char)
        (nl : Nat) (p : List Char),
        o.isEog (o.sample ctx n) = false →
        o.tokenToPiece (o.sample ctx n) = some p →
        containsSub stopStr (res ++ p) = false →
        ¬(p = ['\n'] ∧ 3 ≤ nlNext p nl) →
        o.decodeOk ctx [o.sample ctx n] = false →
        genLoop o (fuel + 1) ctx n res nl = (res ++ p, ctx, 1)) ∧
      generate oC7 ⟨true, []⟩ [] = (lc "partial", ⟨true, [7, 8]⟩) := by
  constructor
  · intro o fuel ctx n res nl p h1 h2 h3 h4 h5
    simp [genLoop, h1, h2, h3, h4, h5]
  · decide

theorem C7_midgen_decode_failure_w :
    genLoop oC7 512 [7, 8] 0 [] 0 = (lc "partial", [7, 8], 1) :=
  C7_midgen_decode_failure.1 oC7 511 [7, 8] 0 [] 0 (lc "partial") rfl rfl
    (by decide) (by decide) rfl

/-- Claim C9: `generate` truncates the diff to its first 4000 characters
before building the prompt (commitgen.cpp:99-100), so two diffs agreeing
on their first 4000 characters yield the same prompt and the same
behaviour; a 5000-character diff and its 4000-character preamble are the
witness instance. -/
theorem C9_truncation (o : Oracle) (s : Session) (d₁ d₂ : List Char)
    (h : d₁.take 4000 = d₂.take 4000) :
    build_prompt (d₁.take 4000) = build_prompt (d₂.take 4000) ∧
      generate o s d₁ = generate o s d₂ := by
  constructor
  · rw [h]
  · simp only [generate, h]

theorem C9_truncation_w :
    build_prompt ((List.replicate 5000 'a').take 4000) =
        build_prompt ((List.replicate 4000 'a').take 4000) ∧
      generate oTriv ⟨true, []⟩ (List.replicate 5000 'a') =
        generate oTriv ⟨true, []⟩ (List.replicate 4000 'a') :=
  C9_truncation oTriv ⟨true, []⟩ _ _ (by
    rw [List.take_replicate, List.take_replicate]
    norm_num)

/-- Claim C10: the decode loop performs at most 512 sampling iterations
whatever the oracle does, the bound `generate` instantiates it with
(commitgen.cpp:122); as a total function of its inputs, `generate`
terminates on every input. -/
theorem C10_loop_bound (o : Oracle) (ctx : List Nat) (n : Nat)
    (res : List Char) (nl : Nat) :
    (genLoop o 512 ctx n res nl).2.2 ≤ 512 :=
  genLoop_count_le o 512 ctx n res nl

theorem trimTrailRev_split : ∀ x : List Char, ∃ d : List Char,
    x = d ++ trimTrailRev x ∧ d.all (fun ch => ch == '\n' || ch == ' ') = true := by
  intro x
  induction x with
  | nil => exact ⟨[], rfl, rfl⟩
  | cons c t ih =>
    by_cases h : c = '\n' ∨ c = ' '
    · obtain ⟨d, hd1, hd2⟩ := ih
      refine ⟨c :: d, ?_, ?_⟩
      · simp only [trimTrailRev, h, if_true]
        rw [List.cons_append, ← hd1]
      · simp only [List.all_cons, hd2, Bool.and_true]
        rcases h with h | h <;> simp [h]
    · exact ⟨[], by simp [trimTrailRev, h], rfl⟩

theorem trimTrailRev_head : ∀ (x : List Char) (c : Char),
    (trimTrailRev x).head? = some c → ¬(c = '\n' ∨ c = ' ') := by
  intro x
  induction x with
  | nil => intro c hc; simp [trimTrailRev] at hc
  | cons a t ih =>
    intro c hc
    by_cases h : a = '\n' ∨ a = ' '
    · rw [trimTrailRev, if_pos h] at hc
      exact ih c hc
    · rw [trimTrailRev, if_neg h] at hc
      simp only [List.head?_cons, Option.some.injEq] at hc
      rw [← hc]
      exact h

/-- Counterexample to claim C2 as stated: the fragment "\r" consists
only of whitespace, yet it resets the consecutive-newline counter
(commitgen.cpp:146 checks only space and tab); consequently the stream
"\n", "\n", "\r", "\n", "Z" does not stop before "Z", whose text reaches
the returned result. -/
theorem C2_cex :
    (lc "\r").all Char.isWhitespace = true ∧ nlNext (lc "\r") 1 = 0 ∧
      containsSub (lc "Z") (generate oC2x ⟨true, []⟩ []).1 = true := by
  decide

/-- Claim C2 (amended): three consecutive "\n" fragments stop the loop —
on the stream "ok", "\n", "\n", "\n", "ignored" the result is "ok" and
excludes "ignored" — any fragment containing a non-whitespace character
resets the counter to zero, and fragments consisting only of space and
tab characters never reset it (commitgen.cpp:142-148). -/
theorem C2_triple_newline :
    ((generate oC2 ⟨true, []⟩ []).1 = lc "ok" ∧
      containsSub (lc "ignored") (generate oC2 ⟨true, []⟩ []).1 = false) ∧
      (∀ (p : List Char) (c : Nat),
        p.any (fun ch => !ch.isWhitespace) = true → nlNext p c = 0) ∧
      (∀ (p : List Char) (c : Nat),
        p.all (fun ch => ch == ' ' || ch == '\t') = true → nlNext p c = c) := by
  refine ⟨by decide, ?_, ?_⟩
  · intro p c h
    have hne : ¬ p = ['\n'] := by
      intro he
      rw [he] at h
      exact absurd h (by decide)
    have hany : p.any (fun ch => !(ch == ' ' || ch == '\t')) = true := by
      rcases List.any_eq_true.mp h with ⟨x, hx, hws⟩
      refine List.any_eq_true.mpr ⟨x, hx, ?_⟩
      have hf : x.isWhitespace = false := by
        rcases hb : x.isWhitespace
        · rfl
        · rw [hb] at hws; exact absurd hws (by decide)
      simp [Char.isWhitespace] at hf
      obtain ⟨hf1, hf2⟩ := hf
      simp [hf1, hf2]
    rw [nlNext, if_neg hne, if_pos hany]
  · intro p c h
    have hne : ¬ p = ['\n'] := by
      intro he
      rw [he] at h
      exact absurd h (by decide)
    have hany : p.any (fun ch => !(ch == ' ' || ch == '\t')) = false := by
      simp only [List.any_eq_false]
      intro x hx
      simp only [List.all_eq_true] at h
      simp [h x hx]
    have hany' : ¬ (p.any (fun ch => !(ch == ' ' || ch == '\t')) = true) := by
      rw [hany]
      exact Bool.false_ne_true
    rw [nlNext, if_neg hne, if_neg hany']

theorem C2_triple_newline_w : nlNext (lc "Q") 7 = 0 :=
  C2_triple_newline.2.1 (lc "Q") 7 (by decide)

/-- Counterexample to claim C6 as stated: with tokenization succeeding
and the prompt decode succeeding, an immediate end-of-generation token
also makes `generate` return the empty string, so the empty string is
not returned *exactly* when one of the two named failures occurs. -/
theorem C6_cex :
    generate oE ⟨true, []⟩ [] = ([], ⟨true, [5]⟩) ∧
      oE.tokenize (build_prompt []) = some [5] ∧
      oE.decodeOk [] [5] = true := by
  refine ⟨by decide, rfl, rfl⟩

/-- Claim C6 (amended): `generate` returns the empty string whenever
tokenization reports failure (negative length, modelled `none`) or the
initial full-prompt decode reports nonzero status (commitgen.cpp:101-110);
the shallow embedding is a total function, so no exception crosses the
boundary, and a subsequent call returns the same output as if the failed
call had not happened. -/
theorem C6_failure_empty :
    (∀ (o : Oracle) (s : Session) (d : List Char),
        o.tokenize (build_prompt (d.take 4000)) = none →
        (generate o s d).1 = []) ∧
      (∀ (o : Oracle) (s : Session) (d : List Char) (toks : List Nat),
        o.tokenize (build_prompt (d.take 4000)) = some toks →
        o.decodeOk [] toks = false →
        (generate o s d).1 = []) ∧
      (∀ (o : Oracle) (s : Session) (d d' : List Char),
        (generate o (generate o s d).2 d').1 = (generate o s d').1) := by
  refine ⟨?_, ?_, ?_⟩
  · intro o s d h
    obtain ⟨r, c⟩ := s
    cases r
    · rfl
    · simp [generate, h]
  · intro o s d toks h hd
    obtain ⟨r, c⟩ := s
    cases r
    · rfl
    · simp [generate, h, hd]
  · intro o s d d'
    by_cases h : s.ready = true
    · rw [generate_state_irrel o (generate o s d).2 d'
          (by rw [generate_ready_inv]; exact h),
        generate_state_irrel o s d' h]
    · have hb : s.ready = false := by
        cases hr : s.ready
        · rfl
        · exact absurd hr h
      rw [generate_not_ready o s d hb]

theorem C6_failure_empty_w : (generate oTriv ⟨true, []⟩ []).1 = [] :=
  C6_failure_empty.1 oTriv ⟨true, []⟩ [] rfl

/-- Claim C8: post-processing strips a single leading and a single
trailing quote character if present, then trims all trailing newline
and space characters (commitgen.cpp:157-166): "hello" in quotes cleans
to hello, doubled quotes lose exactly one layer, a quote-wrapped body is
cleaned to its trailing-trimmed body, the trim only removes trailing
newline/space characters, and what remains never ends in one. -/
theorem C8_postprocessing :
    (postproc (lc "\"hello\"") = lc "hello" ∧
      postproc (lc "\"\"ab\"\"") = lc "\"ab\"") ∧
      (∀ m : List Char, postproc ('"' :: m ++ ['"']) = trimTrail m) ∧
      (∀ s : List Char, ∃ t : List Char,
        s = trimTrail s ++ t ∧ t.all (fun ch => ch == '\n' || ch == ' ') = true) ∧
      (∀ (s : List Char) (c : Char),
        (trimTrail s).getLast? = some c → ¬(c = '\n' ∨ c = ' ')) := by
  refine ⟨by decide, ?_, ?_, ?_⟩
  · intro m
    simp [postproc, dropLeadQuote, dropEndQuote, List.reverse_append]
  · intro s
    obtain ⟨d, hd1, hd2⟩ := trimTrailRev_split s.reverse
    refine ⟨d.reverse, ?_, ?_⟩
    · calc s = s.reverse.reverse := by rw [List.reverse_reverse]
        _ = (d ++ trimTrailRev s.reverse).reverse := by rw [← hd1]
        _ = trimTrail s ++ d.reverse := by
            rw [List.reverse_append]; rfl
    · simpa [List.all_reverse] using hd2
  · intro s c hc
    apply trimTrailRev_head s.reverse c
    rw [← List.getLast?_reverse]
    simpa [trimTrail] using hc

theorem C8_postprocessing_w : ¬('a' = '\n' ∨ 'a' = ' ') :=
  C8_postprocessing.2.2.2 (lc "a\n") 'a' (by decide)
